import Mathlib

/-!
# Verification of the nifti-finder predicate-filtering engine

A shallow embedding of the `nifti_finder` Python package: pure-path
operations (a model of `pathlib.PurePosixPath`), the unit filters of
`nifti_finder/filters/unit.py`, the composite filter of
`nifti_finder/filters/compose.py`, and the traversal entry points of
`nifti_finder/explorers/core.py`, together with theorems about them.

Filesystem state is modelled explicitly as a finite list of entries;
Python generators are modelled as the list of values they yield;
Python exceptions are modelled with `Except`.
-/

namespace NiftiFinder

/-! ## Character-list string helpers

Models of the Python `str` operations used by the source, implemented
by structural recursion on the character list so that every concrete
instance evaluates inside the kernel. -/

/-- Does the first list occur as an initial segment of the second? -/
def lStarts : List Char → List Char → Bool
  | [], _ => true
  | _ :: _, [] => false
  | p :: ps, c :: cs => p = c && lStarts ps cs

/-- Model of Python `s.startswith(pre)`. -/
def pyStartsWith (s pre : String) : Bool :=
  lStarts pre.data s.data

/-- Model of Python `s.endswith(suf)`. -/
def pyEndsWith (s suf : String) : Bool :=
  lStarts suf.data.reverse s.data.reverse

/-- Model of Python `s.removeprefix(pre)`: drop the leading occurrence
of `pre` when present, otherwise return `s` unchanged. -/
def pyDropPre (s pre : String) : String :=
  if pyStartsWith s pre then String.mk (s.data.drop pre.data.length) else s

/-- Model of Python `s.removesuffix(suf)`: drop the trailing occurrence
of `suf` when present, otherwise return `s` unchanged. -/
def pyDropSuf (s suf : String) : String :=
  if pyEndsWith s suf then String.mk (s.data.take (s.data.length - suf.data.length)) else s

/-- Split a character list on `/`, keeping empty groups. -/
def splitSlash : List Char → List (List Char)
  | [] => [[]]
  | c :: cs =>
    match splitSlash cs with
    | [] => if c = '/' then [[], []] else [[c]]
    | g :: gs => if c = '/' then [] :: g :: gs else (c :: g) :: gs

/-- Join a list of strings with `/` separators. -/
def joinSlash : List String → String
  | [] => ""
  | [x] => x
  | x :: xs => x ++ "/" ++ joinSlash xs

/-! ## Pure paths

A model of `pathlib.PurePosixPath`: an absolute-path flag plus the list
of path components.  As in `pathlib`, empty components and `"."`
components are dropped when a path is parsed from a string, while `".."`
components are kept. -/

/-- A POSIX pure path: whether it is anchored at the filesystem root,
and its components. -/
structure PPath where
  absolute : Bool
  comps : List String
deriving DecidableEq

/-- The filesystem root `/`. -/
def PPath.root : PPath := ⟨true, []⟩

/-- Model of `pathlib.PurePosixPath(s)`: parse a path string. -/
def parsePathStr (s : String) : PPath :=
  ⟨(match s.data with | '/' :: _ => true | _ => false),
   ((splitSlash s.data).map (fun g => String.mk g)).filter
     (fun g => g ≠ "" && g ≠ ".")⟩

/-- Model of the `pathlib` string form `str(p)`. -/
def PPath.str (p : PPath) : String :=
  if p.absolute then "/" ++ joinSlash p.comps
  else if p.comps = [] then "." else joinSlash p.comps

/-- Model of `Path.name`: the final component, `""` for a root or empty path. -/
def PPath.name (p : PPath) : String :=
  (p.comps.getLast?).getD ""

/-- Model of `Path.parent`: drop the final component; the parent of `/`
is `/` and the parent of `.` is `.`. -/
def PPath.parent (p : PPath) : PPath :=
  ⟨p.absolute, p.comps.dropLast⟩

/-- Model of `Path.parents`: the ancestors from the immediate parent up
to the anchor (`/a/b/c` ↦ `[/a/b, /a, /]`; a bare `.` or `/` has none). -/
def PPath.parents (p : PPath) : List PPath :=
  (List.range p.comps.length).map
    (fun k => ⟨p.absolute, p.comps.take (p.comps.length - 1 - k)⟩)

/-- Model of the `pathlib` join `p / q`: an absolute right operand replaces the
left one, otherwise the components are concatenated. -/
def PPath.join (p q : PPath) : PPath :=
  if q.absolute then q else ⟨p.absolute, p.comps ++ q.comps⟩

/-- Model of `Path.relative_to`: the remainder of `p` below `r`, or
`none` where Python raises `ValueError`. -/
def PPath.relativeTo (p r : PPath) : Option PPath :=
  if p.absolute = r.absolute ∧ r.comps.isPrefixOf p.comps then
    some ⟨false, p.comps.drop r.comps.length⟩
  else none

/-- One step of lexical `..` resolution. -/
def normStep (acc : List String) (c : String) : List String :=
  if c = ".." then acc.dropLast else acc ++ [c]

/-- Modelled from the spec: the repository helper `resolve_path` (a
"path-string normalization" utility whose definition is not under
`src/`) and `Path.resolve()`.  Both are modelled as the same lexical
normalization: anchor the path at the root (the process working
directory is modelled as `/`) and resolve `..` components; the modelled
filesystem has no symbolic links. -/
def resolve_path (p : PPath) : PPath :=
  ⟨true, p.comps.foldl normStep []⟩

/-! ## Regular expressions and glob patterns

A model of the fragment of Python `re` used by the repository: literal
characters, `.`, concatenation, alternation and `*`-repetition, decided
with Brzozowski derivatives.  `re.match` anchors at the start of the
string and accepts when some prefix matches (not necessarily the whole
string); `re.fullmatch` requires the whole string. -/

/-- Abstract syntax of the modelled regular-expression fragment. -/
inductive Regex where
  | fail
  | eps
  | anyc
  | ch (c : Char)
  | cat (a b : Regex)
  | alt (a b : Regex)
  | star (a : Regex)
deriving DecidableEq

/-- Does the language of `r` contain the empty string? -/
def Regex.nullable : Regex → Bool
  | .fail => false
  | .eps => true
  | .anyc => false
  | .ch _ => false
  | .cat a b => a.nullable && b.nullable
  | .alt a b => a.nullable || b.nullable
  | .star _ => true

/-- Brzozowski derivative of `r` by the character `c`. -/
def Regex.deriv : Regex → Char → Regex
  | .fail, _ => .fail
  | .eps, _ => .fail
  | .anyc, _ => .eps
  | .ch d, c => if d = c then .eps else .fail
  | .cat a b, c =>
      if a.nullable then .alt (.cat (a.deriv c) b) (b.deriv c)
      else .cat (a.deriv c) b
  | .alt a b, c => .alt (a.deriv c) (b.deriv c)
  | .star a, c => .cat (a.deriv c) (.star a)

/-- Model of `re.fullmatch(r, s) is not None`: the whole string is in
the language of `r`. -/
def matchFull (r : Regex) (s : List Char) : Bool :=
  (s.foldl (fun a c => Regex.deriv a c) r).nullable

/-- Model of `re.match(r, s) is not None`: some prefix of `s`, anchored
at the start, is in the language of `r`. -/
def matchPref (r : Regex) : List Char → Bool
  | [] => r.nullable
  | c :: cs => r.nullable || matchPref (r.deriv c) cs

/-- The regex matching exactly the literal string `s`. -/
def litRegex (s : String) : Regex :=
  s.data.foldr (fun c r => .cat (.ch c) r) .eps

/-- Translate one glob (fnmatch) segment into a regex: `*` matches any
run of characters, `?` any single character, anything else itself. -/
def globToRegex : List Char → Regex
  | [] => .eps
  | '*' :: cs => .cat (.star .anyc) (globToRegex cs)
  | '?' :: cs => .cat .anyc (globToRegex cs)
  | c :: cs => .cat (.ch c) (globToRegex cs)

/-- Model of `fnmatch`: does the file name match the glob pattern? -/
def fnmatch (pattern : String) (nm : String) : Bool :=
  matchFull (globToRegex pattern.data) nm.data

/-! ## Filesystem model

The filesystem is a finite list of entries (absolute paths tagged as
regular file or directory, with a readability flag for modelling
permission-denied directories).  The order of `entries` fixes the
directory-walk order of the traversal model. -/

/-- Kind of a filesystem entry. -/
inductive FKind where
  | file
  | dir
deriving DecidableEq

/-- One filesystem entry. -/
structure FSEntry where
  path : PPath
  kind : FKind
  readable : Bool := true
deriving DecidableEq

/-- A filesystem snapshot. -/
structure FS where
  entries : List FSEntry
deriving DecidableEq

/-- Look up the entry at a path. -/
def FS.findEntry (fs : FS) (p : PPath) : Option FSEntry :=
  fs.entries.find? (fun e => e.path = p)

/-- Model of `Path.is_file()`: the path exists and is a regular file
(`is_file` swallows `OSError` and reports `False`). -/
def FS.isFile (fs : FS) (p : PPath) : Bool :=
  match fs.findEntry p with
  | some e => e.kind = FKind.file
  | none => false

/-- Model of `Path.is_dir()`: the path exists and is a directory. -/
def FS.isDir (fs : FS) (p : PPath) : Bool :=
  match fs.findEntry p with
  | some e => e.kind = FKind.dir
  | none => false

/-- Outcome of attempting to list a directory. -/
inductive DirStatus where
  | okDir
  | missing
  | notDir
  | denied
deriving DecidableEq

/-- How an attempt to list the directory `p` ends. -/
def FS.dirStatus (fs : FS) (p : PPath) : DirStatus :=
  match fs.findEntry p with
  | none => .missing
  | some e =>
    match e.kind with
    | .file => .notDir
    | .dir => if e.readable then .okDir else .denied

/-- Decidable equality for `Except`, needed to evaluate concrete calls
of the fallible co-location predicate. -/
instance exceptDecEq {ε α : Type} [DecidableEq ε] [DecidableEq α] :
    DecidableEq (Except ε α) := fun a b =>
  match a, b with
  | .ok x, .ok y =>
    if h : x = y then .isTrue (by rw [h]) else .isFalse (by simp [h])
  | .error e, .error f =>
    if h : e = f then .isTrue (by rw [h]) else .isFalse (by simp [h])
  | .ok _, .error _ => .isFalse (by simp)
  | .error _, .ok _ => .isFalse (by simp)

/-- The Python `OSError` subclasses relevant at this boundary. -/
inductive FsErr where
  | fileNotFound
  | notADirectory
  | permissionDenied
deriving DecidableEq

/-- Glob-pattern segments of a pattern string. -/
def globSegsOf (pattern : String) : List String :=
  (parsePathStr pattern).comps

/-- Match glob-pattern segments against relative path components; a
`**` segment matches any number (including zero) of components.  The
recursion is driven by a fuel argument so that concrete instances
reduce inside the kernel; every step shortens the combined input, so
`segMatch` below always supplies enough fuel. -/
def segMatchFuel : Nat → List String → List String → Bool
  | 0, _, _ => false
  | _ + 1, [], [] => true
  | _ + 1, [], _ :: _ => false
  | fuel + 1, p :: ps, cs =>
    if p = "**" then
      segMatchFuel fuel ps cs ||
        (match cs with
         | [] => false
         | _ :: cs2 => segMatchFuel fuel (p :: ps) cs2)
    else
      match cs with
      | [] => false
      | c :: cs2 => fnmatch p c && segMatchFuel fuel ps cs2

/-- Match glob-pattern segments against relative path components. -/
def segMatch (ps cs : List String) : Bool :=
  segMatchFuel (ps.length + cs.length + 1) ps cs

/-- Model of `Path.glob(pattern)` restricted to a listable directory:
the entries strictly below `dir` whose relative path matches the
pattern, in filesystem order. -/
def FS.globList (fs : FS) (dir : PPath) (pattern : String) : List PPath :=
  fs.entries.filterMap (fun e =>
    match e.path.relativeTo dir with
    | some rel =>
      if rel.comps ≠ [] && segMatch (globSegsOf pattern) rel.comps then some e.path
      else none
    | none => none)

/-- Model of `Path.glob(pattern)` as called on the co-location target
directory.  `pathlib` reports a missing top directory as
`FileNotFoundError` (the error the caller guards against), while a
non-directory target and a permission-denied scan both degrade to an
empty iteration inside `pathlib` itself. -/
def FS.pathGlob (fs : FS) (dir : PPath) (pattern : String) :
    Except FsErr (List PPath) :=
  match fs.dirStatus dir with
  | .missing => .error .fileNotFound
  | .notDir => .ok []
  | .denied => .ok []
  | .okDir => .ok (fs.globList dir pattern)

/-- Model of `Path.rglob(pattern)`: like `glob` with an implicit
leading `**/`. -/
def FS.rglobList (fs : FS) (dir : PPath) (pattern : String) : List PPath :=
  fs.entries.filterMap (fun e =>
    match e.path.relativeTo dir with
    | some rel =>
      if rel.comps ≠ [] && segMatch ("**" :: globSegsOf pattern) rel.comps then some e.path
      else none
    | none => none)

/-! ## Unit filters (`nifti_finder/filters/unit.py`)

Each Python filter class is embedded as the function its `__call__`
method denotes, parameterized by the dataclass fields. -/

/-- The sub-list starting at the first `'.'`, or `[]` if none. -/
def extFrom : List Char → List Char
  | [] => []
  | c :: rest => if c = '.' then c :: rest else extFrom rest

/-- Modelled from the spec: the repository helper `get_ext` (an
"extension-splitting" utility whose definition is not under `src/`).
Per the spec, it yields the full multi-part suffix of the path (`.nii.gz` is
one extension), i.e. everything from the first dot of the file name
other than a leading dot. -/
def get_ext (p : PPath) : String :=
  match p.name.data with
  | [] => ""
  | _ :: rest => String.mk (extFrom rest)

/-- `IncludeExtension.__call__`. -/
def includeExtensionCall (extension : String) (fp : PPath) : Bool :=
  get_ext fp == extension

/-- `IncludeFileSuffix.__call__`. -/
def includeFileSuffixCall (suffix : String) (fp : PPath) : Bool :=
  pyEndsWith (pyDropSuf fp.name (get_ext fp)) suffix

/-- `IncludeFilePrefix.__call__`. -/
def includeFilePrefixCall (pre : String) (fp : PPath) : Bool :=
  pyStartsWith fp.name pre

/-- `IncludeFileRegex.__call__` (the compiled pattern is represented by
its `Regex` abstract syntax). -/
def includeFileRegexCall (regex : Regex) (fp : PPath) : Bool :=
  matchPref regex fp.name.data

/-- `IncludeDirectorySuffix.__call__`. -/
def includeDirectorySuffixCall (suffix : String) (fp : PPath) : Bool :=
  let dirs := fp.parents
  if dirs.isEmpty then false
  else dirs.any (fun d => pyEndsWith d.name suffix)

/-- `IncludeDirectoryPrefix.__call__`. -/
def includeDirectoryPrefixCall (pre : String) (fp : PPath) : Bool :=
  let dirs := fp.parents
  if dirs.isEmpty then false
  else dirs.any (fun d => pyStartsWith d.name pre)

/-- `IncludeDirectoryRegex.__call__`.  Note the source matches the
pattern against `str(d)` — the full path string of each ancestor — not
against the name of the ancestor. -/
def includeDirectoryRegexCall (regex : Regex) (fp : PPath) : Bool :=
  let dirs := fp.parents
  if dirs.isEmpty then false
  else dirs.any (fun d => matchPref regex d.str.data)

/-- The configuration fields of the `IncludeIfFileExists` dataclass. -/
structure IncludeIfFileExists where
  filename_pattern : String
  search_in : String := "--"
  mirror_relative_to : Option String := none
deriving DecidableEq

/-- The Python expression `self.mirror_relative_to or Path("/")`:
`None` and the empty string are falsy and default to the root. -/
def pyOrRootPath : Option String → PPath
  | none => PPath.root
  | some s => if s = "" then PPath.root else parsePathStr s

/-- The target-directory resolution inside `IncludeIfFileExists.__call__`
(`fp` is the already-resolved file path); `none` is the caught
`ValueError` of the mirror branch, which makes the call return `False`. -/
def IncludeIfFileExists.resolveTargetDir (cfg : IncludeIfFileExists)
    (fp : PPath) : Option PPath :=
  let si := cfg.search_in
  if si = "--" then some fp.parent
  else if pyStartsWith si "--" then
    some (resolve_path (fp.parent.join (parsePathStr (pyDropPre si "--"))))
  else if pyEndsWith si "--" then
    let mirrorRoot := resolve_path (parsePathStr (pyDropSuf si "--"))
    let srcRoot := resolve_path (pyOrRootPath cfg.mirror_relative_to)
    match fp.parent.relativeTo srcRoot with
    | none => none
    | some rel => some (mirrorRoot.join rel)
  else
    let p := parsePathStr si
    some (if p.absolute then p else resolve_path (fp.parent.join p))

/-- `IncludeIfFileExists.__call__`: resolve the target directory, then
report whether some glob match there is a regular file; a
`FileNotFoundError` from the glob is caught and yields `False`. -/
def includeIfFileExistsCall (cfg : IncludeIfFileExists) (fs : FS)
    (filepath : PPath) : Except FsErr Bool :=
  let fp := resolve_path filepath
  match cfg.resolveTargetDir fp with
  | none => .ok false
  | some targetDir =>
    let pattern := if cfg.filename_pattern = "--" then fp.name else cfg.filename_pattern
    match fs.pathGlob targetDir pattern with
    | .ok ps => .ok (ps.any (fun p => fs.isFile p))
    | .error .fileNotFound => .ok false
    | .error e => .error e

/-! ### Exclude wrappers

Each `Exclude*` class overrides `__call__` with
`not super().__call__(filepath)`. -/

/-- `ExcludeExtension.__call__`. -/
def excludeExtensionCall (extension : String) (fp : PPath) : Bool :=
  !includeExtensionCall extension fp

/-- `ExcludeFileSuffix.__call__`. -/
def excludeFileSuffixCall (suffix : String) (fp : PPath) : Bool :=
  !includeFileSuffixCall suffix fp

/-- `ExcludeFilePrefix.__call__`. -/
def excludeFilePrefixCall (pre : String) (fp : PPath) : Bool :=
  !includeFilePrefixCall pre fp

/-- `ExcludeFileRegex.__call__`. -/
def excludeFileRegexCall (regex : Regex) (fp : PPath) : Bool :=
  !includeFileRegexCall regex fp

/-- `ExcludeDirectorySuffix.__call__`. -/
def excludeDirectorySuffixCall (suffix : String) (fp : PPath) : Bool :=
  !includeDirectorySuffixCall suffix fp

/-- `ExcludeDirectoryPrefix.__call__`. -/
def excludeDirectoryPrefixCall (pre : String) (fp : PPath) : Bool :=
  !includeDirectoryPrefixCall pre fp

/-- `ExcludeDirectoryRegex.__call__`. -/
def excludeDirectoryRegexCall (regex : Regex) (fp : PPath) : Bool :=
  !includeDirectoryRegexCall regex fp

/-- `ExcludeIfFileExists.__call__`: negate the result of the parent
call; an exception from the parent call would propagate. -/
def excludeIfFileExistsCall (cfg : IncludeIfFileExists) (fs : FS)
    (filepath : PPath) : Except FsErr Bool :=
  match includeIfFileExistsCall cfg fs filepath with
  | .ok b => .ok (!b)
  | .error e => .error e

/-! ## Composite filters (`nifti_finder/filters/compose.py`)

A filter is either an atomic predicate (any of the unit filters above,
abstracted as a boolean function on paths) or a `ComposeFilter` node
holding an ordered child list and a logic mode. -/

/-- Modelled from the spec: the `Logic` enumeration imported by
`compose.py` from `filters/base.py` is not under `src/`; per the spec
the logic mode is two-valued, `AND` or `OR`. -/
inductive Logic where
  | AND
  | OR
deriving DecidableEq

/-- A filter: an atomic path predicate, or a `ComposeFilter` with its
`filters` tuple and `logic` field. -/
inductive Filter where
  | unit (f : PPath → Bool)
  | compose (filters : List Filter) (logic : Logic)

/-- `ComposeFilter._identity`: the value an empty composite evaluates
to (`True` for `AND`, `False` for `OR`). -/
def Logic.identity : Logic → Bool
  | .AND => true
  | .OR => false

mutual
/-- `Filter.__call__`; on a composite: the identity for an empty child
tuple, otherwise the `all`/`any` reduction of the children. -/
def Filter.call : Filter → PPath → Bool
  | .unit f, x => f x
  | .compose fs lg, x =>
    if fs.isEmpty then lg.identity
    else
      match lg with
      | .AND => Filter.callAll fs x
      | .OR => Filter.callAnyL fs x

/-- Python `all(flt(filepath) for flt in filters)`. -/
def Filter.callAll : List Filter → PPath → Bool
  | [], _ => true
  | f :: rest, x => f.call x && Filter.callAll rest x

/-- Python `any(flt(filepath) for flt in filters)`. -/
def Filter.callAnyL : List Filter → PPath → Bool
  | [], _ => false
  | f :: rest, x => f.call x || Filter.callAnyL rest x
end

/-! ### Short-circuit evaluation traces

The Python builtins `all`/`any` consume the generator `flt(filepath) for flt in
self.filters` child by child, in order, and stop at the first
falsifying / satisfying child.  The trace functions return the reduced
boolean together with the number of children whose `__call__` was
evaluated. -/

/-- Operational model of `all(...)` over the child generator: the
result and how many children were invoked. -/
def genAll : List Filter → PPath → Bool × Nat
  | [], _ => (true, 0)
  | f :: rest, x =>
    if f.call x then
      let r := genAll rest x
      (r.1, r.2 + 1)
    else (false, 1)

/-- Operational model of `any(...)` over the child generator: the
result and how many children were invoked. -/
def genAnyL : List Filter → PPath → Bool × Nat
  | [], _ => (false, 0)
  | f :: rest, x =>
    if f.call x then (true, 1)
    else
      let r := genAnyL rest x
      (r.1, r.2 + 1)

/-! ### Flattening -/

mutual
/-- Number of nodes of a filter tree (termination measure for the
flatten loop). -/
def Filter.size : Filter → Nat
  | .unit _ => 1
  | .compose fs _ => 1 + Filter.sizeL fs

/-- Total node count of a list of filters. -/
def Filter.sizeL : List Filter → Nat
  | [] => 0
  | f :: rest => f.size + Filter.sizeL rest
end

theorem sizeL_append (a b : List Filter) :
    Filter.sizeL (a ++ b) = Filter.sizeL a + Filter.sizeL b := by
  induction a with
  | nil => simp [Filter.sizeL]
  | cons f rest ih => simp [Filter.sizeL, ih]; ring

theorem sizeL_reverse (a : List Filter) :
    Filter.sizeL a.reverse = Filter.sizeL a := by
  induction a with
  | nil => rfl
  | cons f rest ih =>
    simp [Filter.sizeL, List.reverse_cons, sizeL_append, ih]
    ring

/-- The `while stack:` loop of `ComposeFilter.flatten`.  The Python
list-used-as-stack is popped from its end; it is represented here with
the top of the stack at the head, so the initial stack is the reversed
child tuple and `extend(f.filters)` prepends the reversed children.
The accumulator is consed, which matches `flat.append` followed by the
final `flat.reverse()`. -/
def flattenLoop (lg : Logic) : List Filter → List Filter → List Filter
  | [], flat => flat
  | .unit f :: rest, flat => flattenLoop lg rest (.unit f :: flat)
  | .compose fs lg2 :: rest, flat =>
    if lg2 = lg then flattenLoop lg (fs.reverse ++ rest) flat
    else flattenLoop lg rest (.compose fs lg2 :: flat)
termination_by stack _ => Filter.sizeL stack
decreasing_by
  all_goals simp [Filter.sizeL, Filter.size, sizeL_append, sizeL_reverse]
  all_goals omega

/-- `ComposeFilter.flatten`: a new composite built from the stack
output of the loop, with the same logic. -/
def composeFlatten (fs : List Filter) (lg : Logic) : Filter :=
  .compose (flattenLoop lg fs.reverse []) lg

/-- The flattening rule as the specification words it: every child
that is itself a composite with the same logic mode is replaced by its
own children (recursively); a child composite with a different logic
mode is retained as an opaque sub-group. -/
def flattenSpec (lg : Logic) : List Filter → List Filter
  | [] => []
  | .unit f :: rest => .unit f :: flattenSpec lg rest
  | .compose fs lg2 :: rest =>
    if lg2 = lg then flattenSpec lg fs ++ flattenSpec lg rest
    else .compose fs lg2 :: flattenSpec lg rest
termination_by l => Filter.sizeL l
decreasing_by
  all_goals simp [Filter.sizeL, Filter.size]
  all_goals omega

/-! ## Traversal engine (`nifti_finder/explorers/core.py`)

A generator is modelled by the list of paths it yields together with
the error, if any, that terminates it; the precondition check of both
`scan` methods runs before the loop, so a failing check produces an
error and no yields at all. -/

/-- The error a scan raises: `NotADirectoryError` with its message. -/
inductive ScanErr where
  | notADirectoryError (msg : String)
deriving DecidableEq

/-- Modelled from the spec: `apply_filters` of the filter
mixin (the `FilterableMixin` providing the `filters`/`logic` keyword
handling is not under `src/`).  Per the spec (§4.4 FilterSet), it
reduces the current predicates under the configured logic and is `True`
when no predicate is attached. -/
def applyFilters (filters : List Filter) (lg : Logic) (x : PPath) : Bool :=
  if filters.isEmpty then true else Filter.call (.compose filters lg) x

/-- `GenericFilterableFileExplorer.scan`: resolve the root, raise
`NotADirectoryError` before yielding anything when it is not a
directory, otherwise yield, pattern by pattern, every recursive-glob
match that is a regular file and passes the filters. -/
def scanGeneric (patterns : List String) (filters : List Filter) (lg : Logic)
    (fs : FS) (root_dir : PPath) : List PPath × Option ScanErr :=
  let root := resolve_path root_dir
  if fs.isDir root then
    ((patterns.flatMap (fun pat => fs.rglobList root pat)).filter
       (fun p => fs.isFile p && applyFilters filters lg p), none)
  else ([], some (.notADirectoryError (root.str ++ " is not a valid directory")))

/-- `NiftiExplorer.scan`: the two-stage traversal.  Stage one collects
the directory matches of the subject pattern directly under the root;
stage two recursively globs each file pattern inside each subject.
The optional progress bar only wraps the subject iteration and does not
change the yielded sequence, so it is not represented. -/
def scanNifti (sub_pattern : String) (filePatterns : List String)
    (filters : List Filter) (lg : Logic) (fs : FS) (root_dir : PPath) :
    List PPath × Option ScanErr :=
  let root := resolve_path root_dir
  if fs.isDir root then
    let subjects := (fs.globList root sub_pattern).filter (fun p => fs.isDir p)
    (subjects.flatMap (fun subj =>
       filePatterns.flatMap (fun pat =>
         (fs.rglobList subj pat).filter
           (fun p => fs.isFile p && applyFilters filters lg p))), none)
  else ([], some (.notADirectoryError (root.str ++ " is not a valid directory")))

/-! ## Helper lemmas -/

/-- The modelled `Path.glob` surfaces no error other than
`FileNotFoundError`. -/
theorem pathGlob_err (fs : FS) (d : PPath) (pat : String) (e : FsErr) :
    fs.pathGlob d pat = .error e → e = .fileNotFound := by
  unfold FS.pathGlob
  split <;> intro h <;> simp_all

/-- The co-location predicate always returns a boolean, never an
exception: every caught branch converts to `False` and the only error
its glob can surface is the caught `FileNotFoundError`. -/
theorem ifeCall_ok (cfg : IncludeIfFileExists) (fs : FS) (x : PPath) :
    ∃ b, includeIfFileExistsCall cfg fs x = .ok b := by
  cases htd : cfg.resolveTargetDir (resolve_path x) with
  | none => exact ⟨false, by simp [includeIfFileExistsCall, htd]⟩
  | some td =>
    cases hg : fs.pathGlob td
        (if cfg.filename_pattern = "--" then (resolve_path x).name
         else cfg.filename_pattern) with
    | ok ps =>
      exact ⟨ps.any (fun p => fs.isFile p), by simp [includeIfFileExistsCall, htd, hg]⟩
    | error e =>
      have he : e = .fileNotFound := pathGlob_err _ _ _ _ hg
      subst he
      exact ⟨false, by simp [includeIfFileExistsCall, htd, hg]⟩

/-! ## Claim theorems -/

/-- C1: for the co-location predicate `IncludeIfFileExists`, for every
path and every resolved target directory, any failure to access the
resolved directory (directory missing, path is not a directory,
permission denied) makes the predicate evaluate to `false`, and no
exception ever escapes the evaluation. -/
theorem claim_C1_colocation_fails_closed (cfg : IncludeIfFileExists)
    (fs : FS) (filepath : PPath) :
    (∃ b, includeIfFileExistsCall cfg fs filepath = .ok b) ∧
    (∀ td, cfg.resolveTargetDir (resolve_path filepath) = some td →
      fs.dirStatus td ≠ .okDir →
      includeIfFileExistsCall cfg fs filepath = .ok false) := by
  refine ⟨ifeCall_ok cfg fs filepath, ?_⟩
  intro td htd hst
  have hpg : ∀ pat, fs.pathGlob td pat = .error .fileNotFound ∨
      fs.pathGlob td pat = .ok [] := by
    intro pat
    unfold FS.pathGlob
    cases hs : fs.dirStatus td
    · exact absurd hs hst
    · exact Or.inl rfl
    · exact Or.inr rfl
    · exact Or.inr rfl
  rcases hpg (if cfg.filename_pattern = "--" then (resolve_path filepath).name
      else cfg.filename_pattern) with h | h <;>
    simp [includeIfFileExistsCall, htd, h]

/-- Witness for C1 at a concrete input: an empty filesystem, where the
target directory is missing, yields `false`. -/
theorem claim_C1_colocation_fails_closed_witness :
    FS.dirStatus ⟨[]⟩ ⟨true, ["data"]⟩ ≠ .okDir ∧
    includeIfFileExistsCall ⟨"*seg*", "--", none⟩ ⟨[]⟩
      (parsePathStr "/data/t1.nii.gz") = .ok false :=
  ⟨by decide,
   (claim_C1_colocation_fails_closed ⟨"*seg*", "--", none⟩ ⟨[]⟩
      (parsePathStr "/data/t1.nii.gz")).2 ⟨true, ["data"]⟩ (by decide) (by decide)⟩

/-- The directory-regex acceptance rule as the claim words it: the
pattern is matched (with `re.match` semantics) against the *name* of
each ancestor directory. -/
def dirRegexNameSpec (regex : Regex) (fp : PPath) : Bool :=
  fp.parents.any (fun d => matchPref regex d.name.data)

/-- C2 counterexample: for the regex `data` and the path
`/data/s1/f.nii`, the source predicate (which matches against the full
ancestor path string `str(d)`) rejects, while the rule of the claim
(matching against the ancestor *name*) accepts, so the claimed
equivalence fails. -/
theorem claim_C2_dir_regex_counterexample :
    ¬ (includeDirectoryRegexCall (litRegex "data") (parsePathStr "/data/s1/f.nii") =
       dirRegexNameSpec (litRegex "data") (parsePathStr "/data/s1/f.nii")) := by
  decide

/-- C2 (amended): `IncludeDirectoryRegex(r)` accepts `p` iff `r`
matches — anchored at the string start, `re.match` semantics, not
full-match — the full path string `str(d)` of at least one ancestor
directory `d` of `p` (any-match across ancestors). -/
theorem claim_C2_amended_dir_regex (r : Regex) (p : PPath) :
    includeDirectoryRegexCall r p = true ↔
      ∃ d ∈ p.parents, matchPref r d.str.data = true := by
  by_cases h : p.parents.isEmpty
  · simp [includeDirectoryRegexCall, h, List.isEmpty_iff.mp h]
  · simp [includeDirectoryRegexCall, h, List.any_eq_true]

/-- C4: for every path, a composite with an empty child sequence
evaluates to the identity element of the logic: `true` under `AND` and
`false` under `OR`. -/
theorem claim_C4_empty_identity (x : PPath) :
    Filter.call (.compose [] .AND) x = true ∧
    Filter.call (.compose [] .OR) x = false := by
  constructor <;> simp [Filter.call, Logic.identity]

/-- C5: every `Exclude*` wrapper accepts exactly the paths its
`Include*` counterpart rejects, for all eight predicate variants; for
the fallible co-location pair the equivalence holds on the returned
booleans. -/
theorem claim_C5_exclude_negation :
    (∀ e x, excludeExtensionCall e x = !includeExtensionCall e x) ∧
    (∀ s x, excludeFileSuffixCall s x = !includeFileSuffixCall s x) ∧
    (∀ s x, excludeFilePrefixCall s x = !includeFilePrefixCall s x) ∧
    (∀ r x, excludeFileRegexCall r x = !includeFileRegexCall r x) ∧
    (∀ s x, excludeDirectorySuffixCall s x = !includeDirectorySuffixCall s x) ∧
    (∀ s x, excludeDirectoryPrefixCall s x = !includeDirectoryPrefixCall s x) ∧
    (∀ r x, excludeDirectoryRegexCall r x = !includeDirectoryRegexCall r x) ∧
    (∀ cfg fs x,
      (excludeIfFileExistsCall cfg fs x = .ok true ↔
       includeIfFileExistsCall cfg fs x = .ok false) ∧
      (excludeIfFileExistsCall cfg fs x = .ok false ↔
       includeIfFileExistsCall cfg fs x = .ok true)) := by
  refine ⟨fun _ _ => rfl, fun _ _ => rfl, fun _ _ => rfl, fun _ _ => rfl,
    fun _ _ => rfl, fun _ _ => rfl, fun _ _ => rfl, ?_⟩
  intro cfg fs x
  obtain ⟨b, hb⟩ := ifeCall_ok cfg fs x
  cases b <;> simp [excludeIfFileExistsCall, hb]

/-- C7: a mirrored co-location predicate evaluates to `false`, raising
no exception, on every path whose resolved parent is not under the
resolved source root. -/
theorem claim_C7_mirror_fails_closed (cfg : IncludeIfFileExists)
    (fs : FS) (filepath : PPath)
    (hm : cfg.mirror_relative_to.isSome)
    (h1 : pyStartsWith cfg.search_in "--" = false)
    (h2 : pyEndsWith cfg.search_in "--" = true)
    (h3 : (resolve_path filepath).parent.relativeTo
            (resolve_path (pyOrRootPath cfg.mirror_relative_to)) = none) :
    includeIfFileExistsCall cfg fs filepath = .ok false := by
  have hsi : cfg.search_in ≠ "--" := by
    intro h
    rw [h] at h1
    exact absurd h1 (by decide)
  simp [includeIfFileExistsCall, IncludeIfFileExists.resolveTargetDir,
    hsi, h1, h2, h3]

/-- Witness for C7 at a concrete input: `/other/s1/t1.nii.gz` is not
under the source root `/data`, so the mirrored predicate rejects. -/
theorem claim_C7_mirror_fails_closed_witness :
    (pyStartsWith "/labels--" "--" = false) ∧
    (pyEndsWith "/labels--" "--" = true) ∧
    includeIfFileExistsCall ⟨"*seg*", "/labels--", some "/data"⟩ ⟨[]⟩
      (parsePathStr "/other/s1/t1.nii.gz") = .ok false :=
  ⟨by decide, by decide,
   claim_C7_mirror_fails_closed ⟨"*seg*", "/labels--", some "/data"⟩ ⟨[]⟩
     (parsePathStr "/other/s1/t1.nii.gz") (by decide) (by decide) (by decide)
     (by decide)⟩

/-- C8: the search-location mini-language resolves the two concrete
examples exactly as specified: mirroring `/labels--` relative to
`/data` sends `/data/s1/ses-1/t1.nii.gz` to `/labels/s1/ses-1`, and the
self-token-relative descriptor `--../labels` sends it to
`/data/s1/labels`. -/
theorem claim_C8_resolution_examples :
    IncludeIfFileExists.resolveTargetDir ⟨"*seg*", "/labels--", some "/data"⟩
        (resolve_path (parsePathStr "/data/s1/ses-1/t1.nii.gz")) =
      some (parsePathStr "/labels/s1/ses-1") ∧
    IncludeIfFileExists.resolveTargetDir ⟨"--", "--../labels", none⟩
        (resolve_path (parsePathStr "/data/s1/ses-1/t1.nii.gz")) =
      some (parsePathStr "/data/s1/labels") := by
  constructor <;> decide

/-- C10 (implicit): when `search_in` has the mirror shape and
`mirror_relative_to` is `None` or empty, the source root silently
defaults to `/`, and for every absolute file path the mirror branch
resolves the target to the mirror root joined with the entire
parent path of the file taken relative to `/`, never failing closed. -/
theorem claim_C10_mirror_default_root (cfg : IncludeIfFileExists)
    (filepath : PPath)
    (hm : cfg.mirror_relative_to = none ∨ cfg.mirror_relative_to = some "")
    (h1 : pyStartsWith cfg.search_in "--" = false)
    (h2 : pyEndsWith cfg.search_in "--" = true)
    (habs : filepath.absolute = true) :
    resolve_path (pyOrRootPath cfg.mirror_relative_to) = PPath.root ∧
    cfg.resolveTargetDir (resolve_path filepath) =
      some ((resolve_path (parsePathStr (pyDropSuf cfg.search_in "--"))).join
        ⟨false, (resolve_path filepath).parent.comps⟩) := by
  have hroot : resolve_path (pyOrRootPath cfg.mirror_relative_to) = PPath.root := by
    rcases hm with h | h <;> simp [h, pyOrRootPath, resolve_path, PPath.root]
  have hsi : cfg.search_in ≠ "--" := by
    intro h
    rw [h] at h1
    exact absurd h1 (by decide)
  refine ⟨hroot, ?_⟩
  have hrel : (resolve_path filepath).parent.relativeTo PPath.root =
      some ⟨false, (resolve_path filepath).parent.comps⟩ := by
    simp [PPath.relativeTo, PPath.root, resolve_path, PPath.parent, List.isPrefixOf]
  simp [IncludeIfFileExists.resolveTargetDir, hsi, h1, h2, hroot, hrel]

/-- Witness for C10 at a concrete input: with `mirror_relative_to`
unset, `/labels--` sends `/data/s1/t1.nii.gz` to `/labels/data/s1`. -/
theorem claim_C10_mirror_default_root_witness :
    (pyStartsWith "/labels--" "--" = false) ∧
    (pyEndsWith "/labels--" "--" = true) ∧
    IncludeIfFileExists.resolveTargetDir ⟨"*", "/labels--", none⟩
        (resolve_path (parsePathStr "/data/s1/t1.nii.gz")) =
      some ((resolve_path (parsePathStr (pyDropSuf "/labels--" "--"))).join
        ⟨false, (resolve_path (parsePathStr "/data/s1/t1.nii.gz")).parent.comps⟩) :=
  ⟨by decide, by decide,
   (claim_C10_mirror_default_root ⟨"*", "/labels--", none⟩
      (parsePathStr "/data/s1/t1.nii.gz") (Or.inl rfl) (by decide) (by decide)
      (by decide)).2⟩

/-! ## Flattening lemmas -/

theorem size_pos (f : Filter) : 0 < f.size := by
  cases f <;> simp [Filter.size] <;> omega

theorem flattenSpec_append (lg : Logic) (a b : List Filter) :
    flattenSpec lg (a ++ b) = flattenSpec lg a ++ flattenSpec lg b := by
  induction a with
  | nil => simp [flattenSpec]
  | cons f rest ih =>
    cases f with
    | unit g => simp [flattenSpec, ih]
    | compose fs lg2 =>
      by_cases h : lg2 = lg
      · simp [flattenSpec, h, ih]
      · simp [flattenSpec, h, ih]

/-- The stack loop computes the specification-worded flattening of the
reversed stack, followed by the accumulator. -/
theorem flattenLoop_eq (lg : Logic) :
    ∀ n stack flat, Filter.sizeL stack ≤ n →
      flattenLoop lg stack flat = flattenSpec lg stack.reverse ++ flat := by
  intro n
  induction n with
  | zero =>
    intro stack flat h
    cases stack with
    | nil => simp [flattenLoop, flattenSpec]
    | cons f rest =>
      exfalso
      have := size_pos f
      simp [Filter.sizeL] at h
      omega
  | succ n ih =>
    intro stack flat h
    cases stack with
    | nil => simp [flattenLoop, flattenSpec]
    | cons f rest =>
      cases f with
      | unit g =>
        rw [flattenLoop]
        rw [ih rest (.unit g :: flat)
          (by simp [Filter.sizeL, Filter.size] at h ⊢; omega)]
        simp [List.reverse_cons, flattenSpec_append, flattenSpec]
      | compose fs lg2 =>
        by_cases hl : lg2 = lg
        · rw [flattenLoop, if_pos hl]
          rw [ih (fs.reverse ++ rest) flat
            (by simp [Filter.sizeL, Filter.size, sizeL_append, sizeL_reverse] at h ⊢; omega)]
          subst hl
          simp [List.reverse_append, List.reverse_reverse, flattenSpec_append,
            flattenSpec]
        · rw [flattenLoop, if_neg hl]
          rw [ih rest (.compose fs lg2 :: flat)
            (by simp [Filter.sizeL, Filter.size] at h ⊢; omega)]
          simp [List.reverse_cons, flattenSpec_append, flattenSpec, hl]

/-- `flatten` produces exactly the specification-worded child list. -/
theorem composeFlatten_eq (fs : List Filter) (lg : Logic) :
    composeFlatten fs lg = .compose (flattenSpec lg fs) lg := by
  unfold composeFlatten
  rw [flattenLoop_eq lg (Filter.sizeL fs.reverse) fs.reverse [] le_rfl]
  simp

/-- No output child of the flattening is a composite with the parent
logic. -/
theorem flattenSpec_no_same (lg : Logic) :
    ∀ n l, Filter.sizeL l ≤ n →
      ∀ g ∈ flattenSpec lg l, ∀ gs, g ≠ .compose gs lg := by
  intro n
  induction n with
  | zero =>
    intro l h g hg gs
    cases l with
    | nil => simp [flattenSpec] at hg
    | cons f rest =>
      exfalso
      have := size_pos f
      simp [Filter.sizeL] at h
      omega
  | succ n ih =>
    intro l h g hg gs
    cases l with
    | nil => simp [flattenSpec] at hg
    | cons f rest =>
      cases f with
      | unit u =>
        simp [flattenSpec] at hg
        rcases hg with h1 | h2
        · subst h1; simp
        · exact ih rest (by simp [Filter.sizeL, Filter.size] at h ⊢; omega) g h2 gs
      | compose fs2 lg2 =>
        by_cases hl : lg2 = lg
        · have hg2 : g ∈ flattenSpec lg fs2 ++ flattenSpec lg rest := by
            simpa [flattenSpec, hl] using hg
          rcases List.mem_append.mp hg2 with h1 | h2
          · exact ih fs2 (by simp [Filter.sizeL, Filter.size] at h ⊢; omega) g h1 gs
          · exact ih rest (by simp [Filter.sizeL, Filter.size] at h ⊢; omega) g h2 gs
        · have hg2 : g = Filter.compose fs2 lg2 ∨ g ∈ flattenSpec lg rest := by
            simpa [flattenSpec, hl] using hg
          rcases hg2 with h1 | h2
          · subst h1
            intro hc
            cases hc
            exact hl rfl
          · exact ih rest (by simp [Filter.sizeL, Filter.size] at h ⊢; omega) g h2 gs

/-- A list with no same-logic composite member is a fixed point of the
flattening. -/
theorem flattenSpec_fixed (lg : Logic) (l : List Filter)
    (h : ∀ g ∈ l, ∀ gs, g ≠ .compose gs lg) : flattenSpec lg l = l := by
  induction l with
  | nil => simp [flattenSpec]
  | cons f rest ih =>
    have hrest : flattenSpec lg rest = rest :=
      ih (fun g hg => h g (by simp [hg]))
    cases f with
    | unit u => simp [flattenSpec, hrest]
    | compose fs2 lg2 =>
      have hne : lg2 ≠ lg := by
        intro hc
        exact (h (.compose fs2 lg2) (by simp) fs2) (by rw [hc])
      simp [flattenSpec, hne, hrest]

/-- The flattening is idempotent. -/
theorem flattenSpec_idem (lg : Logic) (l : List Filter) :
    flattenSpec lg (flattenSpec lg l) = flattenSpec lg l :=
  flattenSpec_fixed lg _ (flattenSpec_no_same lg (Filter.sizeL l) l le_rfl)

theorem callAll_append (a b : List Filter) (x : PPath) :
    Filter.callAll (a ++ b) x = (Filter.callAll a x && Filter.callAll b x) := by
  induction a with
  | nil => simp [Filter.callAll]
  | cons f rest ih => simp [Filter.callAll, ih, Bool.and_assoc]

theorem callAnyL_append (a b : List Filter) (x : PPath) :
    Filter.callAnyL (a ++ b) x = (Filter.callAnyL a x || Filter.callAnyL b x) := by
  induction a with
  | nil => simp [Filter.callAnyL]
  | cons f rest ih => simp [Filter.callAnyL, ih, Bool.or_assoc]

/-- On an `AND` composite the call is the `all` reduction (the empty
case agrees with the identity). -/
theorem call_compose_and (fs : List Filter) (x : PPath) :
    Filter.call (.compose fs .AND) x = Filter.callAll fs x := by
  cases fs <;> simp [Filter.call, Filter.callAll, Logic.identity]

/-- On an `OR` composite the call is the `any` reduction (the empty
case agrees with the identity). -/
theorem call_compose_or (fs : List Filter) (x : PPath) :
    Filter.call (.compose fs .OR) x = Filter.callAnyL fs x := by
  cases fs <;> simp [Filter.call, Filter.callAnyL, Logic.identity]

/-- Flattening preserves the `all` reduction. -/
theorem callAll_flattenSpec (x : PPath) :
    ∀ n l, Filter.sizeL l ≤ n →
      Filter.callAll (flattenSpec .AND l) x = Filter.callAll l x := by
  intro n
  induction n with
  | zero =>
    intro l h
    cases l with
    | nil => simp [flattenSpec]
    | cons f rest =>
      exfalso
      have := size_pos f
      simp [Filter.sizeL] at h
      omega
  | succ n ih =>
    intro l h
    cases l with
    | nil => simp [flattenSpec]
    | cons f rest =>
      cases f with
      | unit u =>
        simp [flattenSpec, Filter.callAll,
          ih rest (by simp [Filter.sizeL, Filter.size] at h ⊢; omega)]
      | compose fs2 lg2 =>
        by_cases hl : lg2 = Logic.AND
        · subst hl
          rw [flattenSpec, if_pos rfl, callAll_append,
            ih fs2 (by simp [Filter.sizeL, Filter.size] at h ⊢; omega),
            ih rest (by simp [Filter.sizeL, Filter.size] at h ⊢; omega)]
          rw [Filter.callAll, call_compose_and]
        · rw [flattenSpec, if_neg hl]
          rw [Filter.callAll, Filter.callAll,
            ih rest (by simp [Filter.sizeL, Filter.size] at h ⊢; omega)]

/-- Flattening preserves the `any` reduction. -/
theorem callAnyL_flattenSpec (x : PPath) :
    ∀ n l, Filter.sizeL l ≤ n →
      Filter.callAnyL (flattenSpec .OR l) x = Filter.callAnyL l x := by
  intro n
  induction n with
  | zero =>
    intro l h
    cases l with
    | nil => simp [flattenSpec]
    | cons f rest =>
      exfalso
      have := size_pos f
      simp [Filter.sizeL] at h
      omega
  | succ n ih =>
    intro l h
    cases l with
    | nil => simp [flattenSpec]
    | cons f rest =>
      cases f with
      | unit u =>
        simp [flattenSpec, Filter.callAnyL,
          ih rest (by simp [Filter.sizeL, Filter.size] at h ⊢; omega)]
      | compose fs2 lg2 =>
        by_cases hl : lg2 = Logic.OR
        · subst hl
          rw [flattenSpec, if_pos rfl, callAnyL_append,
            ih fs2 (by simp [Filter.sizeL, Filter.size] at h ⊢; omega),
            ih rest (by simp [Filter.sizeL, Filter.size] at h ⊢; omega)]
          rw [Filter.callAnyL, call_compose_or]
        · rw [flattenSpec, if_neg hl]
          rw [Filter.callAnyL, Filter.callAnyL,
            ih rest (by simp [Filter.sizeL, Filter.size] at h ⊢; omega)]

/-- C3: flattening is semantics-preserving and idempotent, and its
output children are exactly those the specification describes: each
same-logic child composite is replaced (recursively) by its own
children, while different-logic child composites are retained as
opaque sub-groups. -/
theorem claim_C3_flatten_correct (fs : List Filter) (lg : Logic) (x : PPath) :
    Filter.call (composeFlatten fs lg) x = Filter.call (.compose fs lg) x ∧
    composeFlatten (flattenSpec lg fs) lg = composeFlatten fs lg ∧
    composeFlatten fs lg = .compose (flattenSpec lg fs) lg := by
  have h3 := composeFlatten_eq fs lg
  refine ⟨?_, ?_, h3⟩
  · rw [h3]
    cases lg
    · rw [call_compose_and, call_compose_and,
        callAll_flattenSpec x (Filter.sizeL fs) fs le_rfl]
    · rw [call_compose_or, call_compose_or,
        callAnyL_flattenSpec x (Filter.sizeL fs) fs le_rfl]
  · rw [composeFlatten_eq (flattenSpec lg fs) lg, h3, flattenSpec_idem]

/-! ## Short-circuit lemmas -/

theorem genAll_fst (x : PPath) (l : List Filter) :
    (genAll l x).1 = Filter.callAll l x := by
  induction l with
  | nil => rfl
  | cons f rest ih => by_cases h : f.call x <;> simp [genAll, Filter.callAll, h, ih]

theorem genAnyL_fst (x : PPath) (l : List Filter) :
    (genAnyL l x).1 = Filter.callAnyL l x := by
  induction l with
  | nil => rfl
  | cons f rest ih => by_cases h : f.call x <;> simp [genAnyL, Filter.callAnyL, h, ih]

theorem genAll_snd (x : PPath) (l : List Filter) :
    (genAll l x).2 = min ((l.findIdx fun f => !f.call x) + 1) l.length := by
  induction l with
  | nil => simp [genAll]
  | cons f rest ih =>
    by_cases h : f.call x <;>
      simp [genAll, h, List.findIdx_cons, ih] <;>
      omega

theorem genAnyL_snd (x : PPath) (l : List Filter) :
    (genAnyL l x).2 = min ((l.findIdx fun f => f.call x) + 1) l.length := by
  induction l with
  | nil => simp [genAnyL]
  | cons f rest ih =>
    by_cases h : f.call x <;>
      simp [genAnyL, h, List.findIdx_cons, ih] <;>
      omega

/-- C6: on a non-empty child sequence the composite evaluates its
children in order and stops at the first decisive child — under `AND`
the number of invoked children is the position of the first rejecting
child plus one (all of them when none rejects), dually under `OR` —
while the result is the correct `all`/`any` reduction. -/
theorem claim_C6_short_circuit (fs : List Filter) (x : PPath) (h : fs ≠ []) :
    (genAll fs x).1 = Filter.call (.compose fs .AND) x ∧
    (genAll fs x).2 = min ((fs.findIdx fun f => !f.call x) + 1) fs.length ∧
    (genAnyL fs x).1 = Filter.call (.compose fs .OR) x ∧
    (genAnyL fs x).2 = min ((fs.findIdx fun f => f.call x) + 1) fs.length := by
  refine ⟨?_, genAll_snd x fs, ?_, genAnyL_snd x fs⟩
  · rw [genAll_fst, call_compose_and]
  · rw [genAnyL_fst, call_compose_or]

/-- The concrete child list used by the C6 witness. -/
def c6FiltersW : List Filter :=
  [.unit (fun _ => true), .unit (fun _ => false), .unit (fun _ => true)]

/-- Witness for C6 at a concrete input: a three-child list whose second
child rejects. -/
theorem claim_C6_short_circuit_witness :
    c6FiltersW ≠ [] ∧
    (genAll c6FiltersW PPath.root).2 =
      min ((c6FiltersW.findIdx fun f => !f.call PPath.root) + 1) c6FiltersW.length :=
  ⟨by simp [c6FiltersW],
   (claim_C6_short_circuit c6FiltersW PPath.root (by simp [c6FiltersW])).2.1⟩

/-- C9: scanning a root that is missing or not a directory makes both
the single-stage and the two-stage scan terminate with the descriptive
`NotADirectoryError` and yield zero paths, and in general an erroring
scan never yields a path before the error. -/
theorem claim_C9_scan_precondition (patterns : List String)
    (filters : List Filter) (lg : Logic) (sub_pattern : String) (fs : FS)
    (root_dir : PPath)
    (h : fs.isDir (resolve_path root_dir) = false) :
    scanGeneric patterns filters lg fs root_dir =
      ([], some (.notADirectoryError
        ((resolve_path root_dir).str ++ " is not a valid directory"))) ∧
    scanNifti sub_pattern patterns filters lg fs root_dir =
      ([], some (.notADirectoryError
        ((resolve_path root_dir).str ++ " is not a valid directory"))) ∧
    (∀ pats fl lg2 fs2 rd, (scanGeneric pats fl lg2 fs2 rd).2.isSome →
      (scanGeneric pats fl lg2 fs2 rd).1 = []) ∧
    (∀ sp pats fl lg2 fs2 rd, (scanNifti sp pats fl lg2 fs2 rd).2.isSome →
      (scanNifti sp pats fl lg2 fs2 rd).1 = []) := by
  refine ⟨by simp [scanGeneric, h], by simp [scanNifti, h], ?_, ?_⟩
  · intro pats fl lg2 fs2 rd hsome
    by_cases hd : fs2.isDir (resolve_path rd)
    · simp [scanGeneric, hd] at hsome
    · simp [scanGeneric, hd]
  · intro sp pats fl lg2 fs2 rd hsome
    by_cases hd : fs2.isDir (resolve_path rd)
    · simp [scanNifti, hd] at hsome
    · simp [scanNifti, hd]

/-- Witness for C9 at a concrete input: the root argument names a
regular file, so both scans error and yield nothing. -/
theorem claim_C9_scan_precondition_witness :
    FS.isDir ⟨[⟨⟨true, ["root.txt"]⟩, FKind.file, true⟩]⟩
      (resolve_path (parsePathStr "/root.txt")) = false ∧
    scanGeneric ["*.nii*"] [] .AND ⟨[⟨⟨true, ["root.txt"]⟩, FKind.file, true⟩]⟩
      (parsePathStr "/root.txt") =
      ([], some (.notADirectoryError
        ((resolve_path (parsePathStr "/root.txt")).str ++ " is not a valid directory"))) :=
  ⟨by decide,
   (claim_C9_scan_precondition ["*.nii*"] [] .AND "*"
      ⟨[⟨⟨true, ["root.txt"]⟩, FKind.file, true⟩]⟩ (parsePathStr "/root.txt")
      (by decide)).1⟩

end NiftiFinder
